import Mathlib

/-!
Verification of the in-memory social-graph service (`main.go`).

The store is the global `users : map[string]User` together with the counter
`nextUserID`.  A Go map is embedded as an association list with unique keys;
`insertUser` overwrites the entry for an existing key and otherwise appends,
`deleteKey` removes the entry, `lookupUser` is map indexing.  Every HTTP
handler is embedded as a pure function from the store (plus its request
parameters) to the store after the call together with the payload of the
response; a `none` payload is the error path of the handler, in which the
global map is returned untouched, exactly as the Go handler leaves it.
-/

namespace SocialGraph

/-- Mirror of the Go struct `User` (name, age, friend-ID list). -/
structure User where
  name : String
  age : Int
  friends : List String
deriving DecidableEq, Repr

/-- The global `users` map, as an association list from ID to record. -/
abbrev Store := List (String × User)

/-- Map indexing `users[k]` with its `ok` flag: the first binding of `k`. -/
def lookupUser : Store → String → Option User
  | [], _ => none
  | (k', v) :: rest, k => if k' = k then some v else lookupUser rest k

/-- Map assignment `users[k] = v`: overwrite the binding of `k`, or add one. -/
def insertUser : Store → String → User → Store
  | [], k, v => [(k, v)]
  | (k', v') :: rest, k, v =>
      if k' = k then (k, v) :: rest else (k', v') :: insertUser rest k v

/-- Built-in `delete(users, k)`: drop the binding of `k` if present. -/
def deleteKey : Store → String → Store
  | [], _ => []
  | (k', v) :: rest, k => if k' = k then rest else (k', v) :: deleteKey rest k

/-- Two's-complement wrap of an integer into the range of Go's `int` on the
64-bit targets this service builds for. -/
def wrap64 (n : Int) : Int := (n + 2 ^ 63) % 2 ^ 64 - 2 ^ 63

/-- Wrapping increment: `nextUserID++` on Go's `int` overflows by
deterministic two's-complement wraparound (per the Go specification). -/
def wrapInc (n : Int) : Int := wrap64 (n + 1)

/-- Mirror of `generateUserID`: render the counter with `strconv.Itoa`
(optional sign and decimal digits, which is `Int.repr`) and increment it
with 64-bit wraparound. -/
def generateUserID (nextUserID : Int) : String × Int :=
  (Int.repr nextUserID, wrapInc nextUserID)

/-- Core of `createUserHandler`: insert the decoded record under a fresh ID.
Returns the store, the advanced counter and the ID echoed to the client. -/
def createUserH (users : Store) (nextUserID : Int) (newUser : User) :
    Store × Int × String :=
  let p := generateUserID nextUserID
  (insertUser users p.1 newUser, p.2, p.1)

/-- Core of `getAllUsersHandler`: a 404 on an empty map, otherwise the map. -/
def getAllUsersH (users : Store) : Option Store :=
  if users.length = 0 then none else some users

/-- Core of `makeFriendsHandler`: read both records, append each ID to the
other record's friend list, write source then target back; error (with the
map untouched) when either ID is absent. -/
def makeFriendsH (users : Store) (sourceID targetID : String) :
    Store × Option (String × String) :=
  match lookupUser users sourceID, lookupUser users targetID with
  | some sourceUser, some targetUser =>
      let sourceUser' :=
        { sourceUser with friends := sourceUser.friends ++ [targetID] }
      let targetUser' :=
        { targetUser with friends := targetUser.friends ++ [sourceID] }
      ((insertUser (insertUser users sourceID sourceUser') targetID targetUser'),
        some (sourceUser'.name, targetUser'.name))
  | _, _ => (users, none)

/-- Inner loop of `deleteUserHandler`: drop the first occurrence of `t`
(`break` after the hit), leaving the list unchanged when `t` is absent. -/
def removeFirst : List String → String → List String
  | [], _ => []
  | x :: xs, t => if x = t then xs else x :: removeFirst xs t

/-- One visit of the delete cascade applied to a neighbour's record. -/
def trimFriend (t : String) (u : User) : User :=
  { u with friends := removeFirst u.friends t }

/-- Cascade of `deleteUserHandler`: walk the deleted user's friend list and,
for each ID still in the map, write back its record with the first
occurrence of `targetID` removed. -/
def cascadeRemove (users : Store) (friendIDs : List String)
    (targetID : String) : Store :=
  match friendIDs with
  | [] => users
  | friendID :: rest =>
      match lookupUser users friendID with
      | none => cascadeRemove users rest targetID
      | some friend =>
          cascadeRemove (insertUser users friendID (trimFriend targetID friend))
            rest targetID

/-- Core of `deleteUserHandler`: error when the ID is absent, otherwise
delete the record and run the cascade over its friend list. -/
def deleteUserH (users : Store) (targetID : String) : Store × Option String :=
  match lookupUser users targetID with
  | none => (users, none)
  | some targetUser =>
      (cascadeRemove (deleteKey users targetID) targetUser.friends targetID,
        some targetUser.name)

/-- Core of `getUserFriendsHandler`: error when the ID is absent, otherwise
collect the records of the resolvable friend IDs in list order. -/
def getUserFriendsH (users : Store) (userID : String) : Option (List User) :=
  match lookupUser users userID with
  | none => none
  | some user =>
      some (user.friends.foldl (fun acc friendID =>
        match lookupUser users friendID with
        | some friend => acc ++ [friend]
        | none => acc) [])

/-- Core of `updateUserAgeHandler`: overwrite the age unconditionally. -/
def updateUserAgeH (users : Store) (userID : String) (newAge : Int) :
    Store × Option Unit :=
  match lookupUser users userID with
  | none => (users, none)
  | some user => (insertUser users userID { user with age := newAge }, some ())

/-- Request surface of the service, one constructor per routed handler. -/
inductive Op where
  | create (newUser : User)
  | listUsers
  | makeFriends (sourceID targetID : String)
  | deleteUser (targetID : String)
  | getFriends (userID : String)
  | updateAge (userID : String) (newAge : Int)

/-- Process-wide mutable state: the `users` map and the `nextUserID` counter. -/
structure ServerState where
  users : Store
  nextUserID : Int

/-- State at process start: empty map, counter at 1. -/
def initialState : ServerState := ⟨[], 1⟩

/-- Run one request against the state; the `Option String` is the fresh ID
echoed by `/create` (the other handlers never mint an ID). -/
def runOp (st : ServerState) : Op → ServerState × Option String
  | .create u =>
      let r := createUserH st.users st.nextUserID u
      (⟨r.1, r.2.1⟩, some r.2.2)
  | .listUsers => (st, none)
  | .makeFriends a b => (⟨(makeFriendsH st.users a b).1, st.nextUserID⟩, none)
  | .deleteUser t => (⟨(deleteUserH st.users t).1, st.nextUserID⟩, none)
  | .getFriends _ => (st, none)
  | .updateAge uid a => (⟨(updateUserAgeH st.users uid a).1, st.nextUserID⟩, none)

/-- IDs returned by the `/create` calls of a request sequence, in order. -/
def createdIDs (st : ServerState) : List Op → List String
  | [] => []
  | op :: ops =>
      match runOp st op with
      | (st', some i) => i :: createdIDs st' ops
      | (st', none) => createdIDs st' ops

/-- Number of `/create` requests in a sequence. -/
def countCreates : List Op → Nat
  | [] => 0
  | .create _ :: ops => countCreates ops + 1
  | _ :: ops => countCreates ops

/-- Successive counter values consumed by `k` consecutive `/create` calls
starting from counter value `c`. -/
def counterSeq : Int → Nat → List Int
  | _, 0 => []
  | c, k + 1 => c :: counterSeq (wrapInc c) k

/-- Request sequence of 2^64 + 1 creates: enough to wrap the `int` counter
exactly once and revisit its starting value. -/
def bigOps : List Op :=
  List.replicate (2 ^ 64 + 1) (Op.create ⟨"A", 30, []⟩)

/-- Decidable check of the §3 bidirectional-consistency invariant: every
friend entry names an existing user that lists the owner back. -/
def checkSymmetric (s : Store) : Bool :=
  s.all (fun p => p.2.friends.all (fun b =>
    match lookupUser s b with
    | some ub => ub.friends.contains p.1
    | none => false))

/-! Basic association-list lemmas. -/

theorem lookupUser_insertUser_self (s : Store) (k : String) (v : User) :
    lookupUser (insertUser s k v) k = some v := by
  induction s with
  | nil => simp [insertUser, lookupUser]
  | cons hd tl ih =>
      obtain ⟨k', v'⟩ := hd
      by_cases h : k' = k
      · simp [insertUser, h, lookupUser]
      · simp [insertUser, h, lookupUser, ih]

theorem lookupUser_insertUser_ne (s : Store) (k k' : String) (v : User)
    (h : k' ≠ k) : lookupUser (insertUser s k v) k' = lookupUser s k' := by
  induction s with
  | nil => simp [insertUser, lookupUser, Ne.symm h]
  | cons hd tl ih =>
      obtain ⟨k₀, v₀⟩ := hd
      by_cases h₀ : k₀ = k
      · subst h₀
        simp [insertUser, lookupUser, Ne.symm h]
      · simp only [insertUser, if_neg h₀, lookupUser]
        by_cases h₁ : k₀ = k'
        · simp [h₁]
        · simp [h₁, ih]

theorem lookupUser_deleteKey_ne (s : Store) (k k' : String)
    (h : k' ≠ k) : lookupUser (deleteKey s k) k' = lookupUser s k' := by
  induction s with
  | nil => simp [deleteKey]
  | cons hd tl ih =>
      obtain ⟨k₀, v₀⟩ := hd
      by_cases h₀ : k₀ = k
      · subst h₀
        simp [deleteKey, lookupUser, Ne.symm h]
      · simp only [deleteKey, if_neg h₀, lookupUser]
        by_cases h₁ : k₀ = k'
        · simp [h₁]
        · simp [h₁, ih]

theorem lookupUser_eq_none_of_not_mem_keys (s : Store) (k : String)
    (h : k ∉ s.map Prod.fst) : lookupUser s k = none := by
  induction s with
  | nil => simp [lookupUser]
  | cons hd tl ih =>
      obtain ⟨k₀, v₀⟩ := hd
      simp only [List.map_cons, List.mem_cons] at h
      push_neg at h
      simp [lookupUser, Ne.symm h.1, ih h.2]

theorem lookupUser_deleteKey_self (s : Store) (k : String)
    (hnd : (s.map Prod.fst).Nodup) : lookupUser (deleteKey s k) k = none := by
  induction s with
  | nil => simp [deleteKey, lookupUser]
  | cons hd tl ih =>
      obtain ⟨k₀, v₀⟩ := hd
      simp only [List.map_cons, List.nodup_cons] at hnd
      by_cases h₀ : k₀ = k
      · subst h₀
        simpa [deleteKey] using lookupUser_eq_none_of_not_mem_keys tl k₀ hnd.1
      · simp [deleteKey, h₀, lookupUser, ih hnd.2]

/-! Decimal rendering of IDs.  `strconv.Itoa` on the (always positive)
counter is `Nat.repr`.  The fueled `Nat.toDigitsCore` is related to a
fuel-free digit function, from which injectivity of `Nat.repr` follows via
an explicit decoder. -/

/-- Fuel-free decimal digit characters of a natural number. -/
def decChars (n : Nat) : List Char :=
  if _h : n < 10 then [Nat.digitChar n]
  else decChars (n / 10) ++ [Nat.digitChar (n % 10)]
termination_by n
decreasing_by
  exact Nat.div_lt_self (by omega) (by omega)

/-- Value of a decimal digit character. -/
def charVal (c : Char) : Nat := c.toNat - 48

/-- Decoder of a decimal character string. -/
def decVal (l : List Char) : Nat :=
  l.foldl (fun acc c => acc * 10 + charVal c) 0

theorem charVal_digitChar (d : Nat) (h : d < 10) :
    charVal (Nat.digitChar d) = d := by
  interval_cases d <;> rfl

theorem decVal_append_digit (l : List Char) (c : Char) :
    decVal (l ++ [c]) = decVal l * 10 + charVal c := by
  simp [decVal, List.foldl_append]

theorem decVal_decChars (n : Nat) : decVal (decChars n) = n := by
  induction n using Nat.strong_induction_on with
  | _ n ih =>
    rw [decChars]
    by_cases h : n < 10
    · rw [dif_pos h]
      simp [decVal, charVal_digitChar n h]
    · rw [dif_neg h]
      rw [decVal_append_digit, ih (n / 10) (Nat.div_lt_self (by omega) (by omega)),
        charVal_digitChar _ (Nat.mod_lt _ (by omega))]
      omega

theorem toDigitsCore_eq_decChars (fuel : Nat) :
    ∀ (n : Nat) (ds : List Char), n < fuel →
      Nat.toDigitsCore 10 fuel n ds = decChars n ++ ds := by
  induction fuel with
  | zero => intro n ds h; omega
  | succ f ih =>
      intro n ds h
      simp only [Nat.toDigitsCore]
      by_cases h10 : n < 10
      · have hz : n / 10 = 0 := by omega
        rw [if_pos hz, decChars, dif_pos h10, Nat.mod_eq_of_lt h10]
        simp
      · have hne : ¬ n / 10 = 0 := by omega
        have hlt : n / 10 < f := by omega
        rw [if_neg hne, ih (n / 10) _ hlt]
        conv_rhs => rw [decChars]
        rw [dif_neg h10]
        simp [List.append_assoc]

theorem toDigits_eq_decChars (n : Nat) : Nat.toDigits 10 n = decChars n := by
  have h := toDigitsCore_eq_decChars (n + 1) n [] (by omega)
  simpa [Nat.toDigits] using h

theorem natRepr_injective (m n : Nat) (h : Nat.repr m = Nat.repr n) :
    m = n := by
  have hm : decChars m = decChars n := by
    simp only [Nat.repr, toDigits_eq_decChars] at h
    exact List.asString_inj.mp h
  have h2 := congrArg decVal hm
  simpa [decVal_decChars] using h2

theorem lookupUser_mem (s : Store) (k : String) (u : User)
    (h : lookupUser s k = some u) : (k, u) ∈ s := by
  induction s with
  | nil => simp [lookupUser] at h
  | cons hd tl ih =>
      obtain ⟨k₀, v₀⟩ := hd
      by_cases h₀ : k₀ = k
      · subst h₀
        simp [lookupUser] at h
        subst h
        exact List.mem_cons_self _ _
      · simp only [lookupUser, if_neg h₀] at h
        exact List.mem_cons_of_mem _ (ih h)

/-! Lemmas on the delete cascade. -/

theorem count_removeFirst (l : List String) (t : String) :
    (removeFirst l t).count t = l.count t - 1 := by
  induction l with
  | nil => simp [removeFirst]
  | cons x xs ih =>
      by_cases h : x = t
      · subst h
        simp [removeFirst]
      · simp [removeFirst, h, ih, List.count_cons_of_ne (Ne.symm h)]

theorem trimFriend_iterate_count (t : String) (u : User) (n : Nat) :
    ((trimFriend t)^[n] u).friends.count t = u.friends.count t - n := by
  induction n generalizing u with
  | zero => simp
  | succ n ih =>
      rw [Function.iterate_succ_apply, ih]
      simp only [trimFriend, count_removeFirst]
      omega

theorem lookupUser_cascadeRemove_none (l : List String) :
    ∀ (s : Store) (t K : String), lookupUser s K = none →
      lookupUser (cascadeRemove s l t) K = none := by
  induction l with
  | nil => intro s t K h; simpa [cascadeRemove] using h
  | cons x xs ih =>
      intro s t K h
      cases hx : lookupUser s x with
      | none => simpa [cascadeRemove, hx] using ih s t K h
      | some friend =>
          have hne : K ≠ x := by
            intro he
            rw [he, hx] at h
            exact Option.noConfusion h
          have h2 : lookupUser (insertUser s x (trimFriend t friend)) K = none := by
            rw [lookupUser_insertUser_ne _ _ _ _ hne]
            exact h
          simpa [cascadeRemove, hx] using ih _ t K h2

theorem lookupUser_cascadeRemove (l : List String) :
    ∀ (s : Store) (t K : String) (u : User), lookupUser s K = some u →
      lookupUser (cascadeRemove s l t) K =
        some ((trimFriend t)^[l.count K] u) := by
  induction l with
  | nil => intro s t K u h; simpa [cascadeRemove] using h
  | cons x xs ih =>
      intro s t K u h
      by_cases hxK : x = K
      · subst hxK
        have h2 : lookupUser (insertUser s x (trimFriend t u)) x =
            some (trimFriend t u) := lookupUser_insertUser_self _ _ _
        have h3 := ih _ t x _ h2
        simp only [cascadeRemove, h, h3, List.count_cons_self,
          Function.iterate_succ_apply]
      · cases hx : lookupUser s x with
        | none =>
            have h3 := ih s t K u h
            simp only [cascadeRemove, hx, h3,
              List.count_cons_of_ne (Ne.symm hxK)]
        | some friend =>
            have h2 : lookupUser (insertUser s x (trimFriend t friend)) K =
                some u := by
              rw [lookupUser_insertUser_ne _ _ _ _ (Ne.symm hxK)]
              exact h
            have h3 := ih _ t K u h2
            simp only [cascadeRemove, hx, h3,
              List.count_cons_of_ne (Ne.symm hxK)]

/-! Lemma on the friend-collection loop of `getUserFriendsHandler`. -/

theorem friendsFold_eq_filterMap (s : Store) (l : List String) :
    ∀ acc : List User,
      l.foldl (fun acc friendID =>
        match lookupUser s friendID with
        | some friend => acc ++ [friend]
        | none => acc) acc
      = acc ++ l.filterMap (fun friendID => lookupUser s friendID) := by
  induction l with
  | nil => intro acc; simp
  | cons x xs ih =>
      intro acc
      cases hx : lookupUser s x with
      | none => simp [List.foldl_cons, hx, ih, List.filterMap_cons]
      | some f => simp [List.foldl_cons, hx, ih, List.filterMap_cons]

/-! Lemmas on ID generation across a request sequence: the counter is
touched only by `/create`, so the minted IDs are renderings of the
`wrapInc` orbit of the starting counter. -/

theorem wrap64_eq_self (n : Int) (h1 : -(2 ^ 63) ≤ n) (h2 : n < 2 ^ 63) :
    wrap64 n = n := by
  unfold wrap64
  omega

theorem wrap64_wrap64_add_one (x : Int) :
    wrap64 (wrap64 x + 1) = wrap64 (x + 1) := by
  unfold wrap64
  omega

theorem wrapInc_iterate (n : Int) (h1 : -(2 ^ 63) ≤ n) (h2 : n < 2 ^ 63)
    (j : Nat) : wrapInc^[j] n = wrap64 (n + j) := by
  induction j with
  | zero => simpa using (wrap64_eq_self n h1 h2).symm
  | succ j ih =>
      rw [Function.iterate_succ_apply', ih, wrapInc, wrap64_wrap64_add_one]
      congr 1
      push_cast
      ring

theorem counterSeq_append (m₁ m₂ : Nat) :
    ∀ c : Int, counterSeq c (m₁ + m₂) =
      counterSeq c m₁ ++ counterSeq (wrapInc^[m₁] c) m₂ := by
  induction m₁ with
  | zero => intro c; simp [counterSeq]
  | succ m ih =>
      intro c
      have hm : m + 1 + m₂ = (m + m₂) + 1 := by omega
      rw [hm]
      simp only [counterSeq, List.cons_append]
      rw [ih (wrapInc c), Function.iterate_succ_apply]

theorem counterSeq_self_mem (c : Int) (k : Nat) (h : 0 < k) :
    c ∈ counterSeq c k := by
  cases k with
  | zero => omega
  | succ k => simp [counterSeq]

theorem counterSeq_no_wrap (k : Nat) :
    ∀ c : Nat, c + k < 2 ^ 63 →
      counterSeq (c : Int) k = (List.range' c k).map (fun (i : Nat) => (i : Int)) := by
  induction k with
  | zero => intro c h; simp [counterSeq]
  | succ k ih =>
      intro c h
      have hw : wrapInc (c : Int) = ((c + 1 : Nat) : Int) := by
        unfold wrapInc wrap64
        push_cast
        omega
      rw [counterSeq, hw, ih (c + 1) (by omega), List.range'_succ]
      simp

theorem countCreates_replicate (m : Nat) (u : User) :
    countCreates (List.replicate m (Op.create u)) = m := by
  induction m with
  | zero => rfl
  | succ m ih => simp [List.replicate_succ, countCreates, ih]

theorem createdIDs_eq (ops : List Op) :
    ∀ (s : Store) (c : Int),
      createdIDs ⟨s, c⟩ ops =
        (counterSeq c (countCreates ops)).map Int.repr := by
  induction ops with
  | nil => intro s c; simp [createdIDs, countCreates, counterSeq]
  | cons op ops ih =>
      intro s c
      cases op with
      | create u =>
          simp [createdIDs, runOp, createUserH, generateUserID, countCreates,
            ih, counterSeq]
      | listUsers => simpa [createdIDs, runOp, countCreates] using ih s c
      | makeFriends a b => simpa [createdIDs, runOp, countCreates] using ih _ c
      | deleteUser t => simpa [createdIDs, runOp, countCreates] using ih _ c
      | getFriends uid => simpa [createdIDs, runOp, countCreates] using ih s c
      | updateAge uid a => simpa [createdIDs, runOp, countCreates] using ih _ c

/-! Claim theorems. -/

/-- C1: for distinct user IDs A and B both present in the store, a successful
`Link(A,B)` leaves B in A's friend list and A in B's friend list. -/
theorem link_symmetric (s : Store) (A B : String) (ua ub : User)
    (hA : lookupUser s A = some ua) (hB : lookupUser s B = some ub)
    (hne : A ≠ B) :
    ∃ s' names, makeFriendsH s A B = (s', some names) ∧
      (∃ ua', lookupUser s' A = some ua' ∧ B ∈ ua'.friends) ∧
      (∃ ub', lookupUser s' B = some ub' ∧ A ∈ ub'.friends) := by
  refine ⟨insertUser (insertUser s A { ua with friends := ua.friends ++ [B] })
      B { ub with friends := ub.friends ++ [A] }, (ua.name, ub.name),
    ?_, ?_, ?_⟩
  · simp [makeFriendsH, hA, hB]
  · refine ⟨{ ua with friends := ua.friends ++ [B] }, ?_, by simp⟩
    rw [lookupUser_insertUser_ne _ _ _ _ hne]
    exact lookupUser_insertUser_self _ _ _
  · exact ⟨{ ub with friends := ub.friends ++ [A] },
      lookupUser_insertUser_self _ _ _, by simp⟩

/-- C1 witness: linking two concrete users of a two-user store. -/
theorem link_symmetric_witness :
    ∃ s' names,
      makeFriendsH [("1", ⟨"Alice", 30, []⟩), ("2", ⟨"Bob", 25, []⟩)]
          "1" "2" = (s', some names) ∧
      (∃ ua', lookupUser s' "1" = some ua' ∧ "2" ∈ ua'.friends) ∧
      (∃ ub', lookupUser s' "2" = some ub' ∧ "1" ∈ ub'.friends) :=
  link_symmetric _ "1" "2" ⟨"Alice", 30, []⟩ ⟨"Bob", 25, []⟩
    (by decide) (by decide) (by decide)

/-- C10: a self-link on an existing user succeeds and appends exactly one new
occurrence of the user's own ID to their friend list (the second map write
overwrites the first), not two occurrences. -/
theorem self_link_single_append (s : Store) (A : String) (ua : User)
    (hA : lookupUser s A = some ua) :
    (makeFriendsH s A A).2 = some (ua.name, ua.name) ∧
    lookupUser (makeFriendsH s A A).1 A =
      some { ua with friends := ua.friends ++ [A] } ∧
    (ua.friends ++ [A]).count A = ua.friends.count A + 1 := by
  refine ⟨by simp [makeFriendsH, hA], ?_, by simp⟩
  simp only [makeFriendsH, hA]
  exact lookupUser_insertUser_self _ _ _

/-- C10 witness: self-link on a concrete store where the user already lists
themselves once; exactly one further copy is appended. -/
theorem self_link_single_append_witness :
    (makeFriendsH [("1", ⟨"Alice", 30, ["1"]⟩)] "1" "1").2 =
      some ("Alice", "Alice") ∧
    lookupUser (makeFriendsH [("1", ⟨"Alice", 30, ["1"]⟩)] "1" "1").1 "1" =
      some ⟨"Alice", 30, ["1", "1"]⟩ ∧
    (["1", "1"] : List String).count "1" = (["1"] : List String).count "1" + 1 :=
  self_link_single_append [("1", ⟨"Alice", 30, ["1"]⟩)] "1" ⟨"Alice", 30, ["1"]⟩
    (by decide)

/-- C3: Link is not idempotent — linking the same pair of distinct existing
users twice succeeds twice and appends a second copy of each ID on both
sides, performing no de-duplication: each side's count goes up by two, so a
pair that was not friends before ends with exactly two entries each. -/
theorem link_not_idempotent (s : Store) (A B : String) (ua ub : User)
    (hA : lookupUser s A = some ua) (hB : lookupUser s B = some ub)
    (hne : A ≠ B) :
    ∃ s₁ n₁ s₂ n₂, makeFriendsH s A B = (s₁, some n₁) ∧
      makeFriendsH s₁ A B = (s₂, some n₂) ∧
      lookupUser s₂ A = some { ua with friends := ua.friends ++ [B] ++ [B] } ∧
      lookupUser s₂ B = some { ub with friends := ub.friends ++ [A] ++ [A] } ∧
      (ua.friends ++ [B] ++ [B]).count B = ua.friends.count B + 2 ∧
      (ub.friends ++ [A] ++ [A]).count A = ub.friends.count A + 2 := by
  have hA1 : lookupUser (insertUser (insertUser s A
      { ua with friends := ua.friends ++ [B] }) B
      { ub with friends := ub.friends ++ [A] }) A =
      some { ua with friends := ua.friends ++ [B] } := by
    rw [lookupUser_insertUser_ne _ _ _ _ hne]
    exact lookupUser_insertUser_self _ _ _
  have hB1 : lookupUser (insertUser (insertUser s A
      { ua with friends := ua.friends ++ [B] }) B
      { ub with friends := ub.friends ++ [A] }) B =
      some { ub with friends := ub.friends ++ [A] } :=
    lookupUser_insertUser_self _ _ _
  refine ⟨insertUser (insertUser s A { ua with friends := ua.friends ++ [B] })
      B { ub with friends := ub.friends ++ [A] }, (ua.name, ub.name),
    insertUser (insertUser (insertUser (insertUser s A
        { ua with friends := ua.friends ++ [B] }) B
        { ub with friends := ub.friends ++ [A] }) A
        { ua with friends := ua.friends ++ [B] ++ [B] }) B
        { ub with friends := ub.friends ++ [A] ++ [A] }, (ua.name, ub.name),
    by simp [makeFriendsH, hA, hB], by simp [makeFriendsH, hA1, hB1], ?_, ?_,
    by simp, by simp⟩
  · rw [lookupUser_insertUser_ne _ _ _ _ hne]
    exact lookupUser_insertUser_self _ _ _
  · exact lookupUser_insertUser_self _ _ _

/-- C3 witness: double link on a concrete two-user store. -/
theorem link_not_idempotent_witness :
    ∃ s₁ n₁ s₂ n₂,
      makeFriendsH [("1", ⟨"Alice", 30, []⟩), ("2", ⟨"Bob", 25, []⟩)]
          "1" "2" = (s₁, some n₁) ∧
      makeFriendsH s₁ "1" "2" = (s₂, some n₂) ∧
      lookupUser s₂ "1" = some ⟨"Alice", 30, [] ++ ["2"] ++ ["2"]⟩ ∧
      lookupUser s₂ "2" = some ⟨"Bob", 25, [] ++ ["1"] ++ ["1"]⟩ ∧
      (([] ++ ["2"] ++ ["2"]) : List String).count "2" =
        ([] : List String).count "2" + 2 ∧
      (([] ++ ["1"] ++ ["1"]) : List String).count "1" =
        ([] : List String).count "1" + 2 :=
  link_not_idempotent _ "1" "2" ⟨"Alice", 30, []⟩ ⟨"Bob", 25, []⟩
    (by decide) (by decide) (by decide)

/-- C4: `Link` fails exactly when either endpoint is missing from the map,
and a failing call leaves the map completely unchanged. -/
theorem link_failure_iff_unknown (s : Store) (A B : String) :
    ((makeFriendsH s A B).2 = none ↔
      (lookupUser s A = none ∨ lookupUser s B = none)) ∧
    ((makeFriendsH s A B).2 = none → (makeFriendsH s A B).1 = s) := by
  cases hA : lookupUser s A <;> cases hB : lookupUser s B <;>
    simp [makeFriendsH, hA, hB]

/-- C4 witness: linking against a store that misses the target ID. -/
theorem link_failure_iff_unknown_witness :
    ((makeFriendsH [("1", ⟨"Alice", 30, []⟩)] "1" "2").2 = none ↔
      (lookupUser [("1", ⟨"Alice", 30, []⟩)] "1" = none ∨
        lookupUser [("1", ⟨"Alice", 30, []⟩)] "2" = none)) ∧
    ((makeFriendsH [("1", ⟨"Alice", 30, []⟩)] "1" "2").2 = none →
      (makeFriendsH [("1", ⟨"Alice", 30, []⟩)] "1" "2").1 =
        [("1", ⟨"Alice", 30, []⟩)]) :=
  link_failure_iff_unknown [("1", ⟨"Alice", 30, []⟩)] "1" "2"

/-- C2 counterexample: user "2" lists "1" but does not appear in "1"'s friend
list, so the cascade of a successful `DeleteUser("1")` never visits "2" and
"1" survives in "2"'s friend list. -/
theorem delete_cascade_incomplete_cex :
    (deleteUserH [("1", ⟨"Alice", 30, []⟩), ("2", ⟨"Bob", 25, ["1"]⟩)]
        "1").2 = some "Alice" ∧
    lookupUser (deleteUserH [("1", ⟨"Alice", 30, []⟩),
        ("2", ⟨"Bob", 25, ["1"]⟩)] "1").1 "2" = some ⟨"Bob", 25, ["1"]⟩ := by
  decide

/-- C2 (amended): when, before the call, each user's friend list contains X at
most as often as that user's ID occurs in X's own friend list — which holds
whenever friendships are stored with symmetric multiplicity — a successful
`DeleteUser(X)` removes X from the user map and from the friend list of every
remaining user. -/
theorem delete_cascade_complete (s : Store) (X : String) (ux : User)
    (hnd : (s.map Prod.fst).Nodup)
    (hx : lookupUser s X = some ux)
    (hsym : ∀ p ∈ s, p.2.friends.count X ≤ ux.friends.count p.1) :
    (deleteUserH s X).2 = some ux.name ∧
    lookupUser (deleteUserH s X).1 X = none ∧
    ∀ k u', lookupUser (deleteUserH s X).1 k = some u' → X ∉ u'.friends := by
  have hdel1 : (deleteUserH s X).1 =
      cascadeRemove (deleteKey s X) ux.friends X := by
    simp [deleteUserH, hx]
  have hXnone : lookupUser (deleteKey s X) X = none :=
    lookupUser_deleteKey_self s X hnd
  have hXnone' :
      lookupUser (cascadeRemove (deleteKey s X) ux.friends X) X = none :=
    lookupUser_cascadeRemove_none ux.friends _ X X hXnone
  refine ⟨by simp [deleteUserH, hx], hdel1 ▸ hXnone', ?_⟩
  intro k u' hk
  rw [hdel1] at hk
  by_cases hkX : k = X
  · subst hkX
    rw [hk] at hXnone'
    exact Option.noConfusion hXnone'
  cases hsk : lookupUser s k with
  | none =>
      have hnone : lookupUser (deleteKey s X) k = none := by
        rw [lookupUser_deleteKey_ne _ _ _ hkX]
        exact hsk
      rw [lookupUser_cascadeRemove_none ux.friends _ X k hnone] at hk
      exact Option.noConfusion hk
  | some uy =>
      have h1 : lookupUser (deleteKey s X) k = some uy := by
        rw [lookupUser_deleteKey_ne _ _ _ hkX]
        exact hsk
      have h2 := lookupUser_cascadeRemove ux.friends _ X k uy h1
      rw [h2] at hk
      injection hk with hk
      subst hk
      have hcnt := trimFriend_iterate_count X uy (ux.friends.count k)
      have hle : uy.friends.count X ≤ ux.friends.count k :=
        hsym (k, uy) (lookupUser_mem s k uy hsk)
      have hzero : ((trimFriend X)^[ux.friends.count k] uy).friends.count X
          = 0 := by omega
      rw [List.count_eq_zero] at hzero
      exact hzero

/-- C2 witness for the amended theorem: a deletion on a concrete store whose
friendships are symmetric. -/
theorem delete_cascade_complete_witness :
    (deleteUserH [("1", ⟨"Alice", 30, ["2"]⟩), ("2", ⟨"Bob", 25, ["1"]⟩)]
        "1").2 = some "Alice" ∧
    lookupUser (deleteUserH [("1", ⟨"Alice", 30, ["2"]⟩),
        ("2", ⟨"Bob", 25, ["1"]⟩)] "1").1 "1" = none ∧
    ∀ k u', lookupUser (deleteUserH [("1", ⟨"Alice", 30, ["2"]⟩),
        ("2", ⟨"Bob", 25, ["1"]⟩)] "1").1 k = some u' → "1" ∉ u'.friends :=
  delete_cascade_complete _ "1" ⟨"Alice", 30, ["2"]⟩
    (by decide) (by decide) (by decide)

/-- C8: when Y occurs exactly once in the deleted user's friend list, the
single cascade scan of Y rewrites Y's record with exactly the first
occurrence of the deleted ID removed, and any further occurrences of the
deleted ID in Y's list survive (the count drops by exactly one). -/
theorem delete_single_removal_per_scan (s : Store) (X Y : String)
    (ux uy : User) (hx : lookupUser s X = some ux)
    (hy : lookupUser s Y = some uy) (hne : Y ≠ X)
    (honce : ux.friends.count Y = 1) :
    (deleteUserH s X).2 = some ux.name ∧
    lookupUser (deleteUserH s X).1 Y =
      some { uy with friends := removeFirst uy.friends X } ∧
    (removeFirst uy.friends X).count X = uy.friends.count X - 1 := by
  have h1 : lookupUser (deleteKey s X) Y = some uy := by
    rw [lookupUser_deleteKey_ne _ _ _ hne]
    exact hy
  have h2 := lookupUser_cascadeRemove ux.friends _ X Y uy h1
  rw [honce] at h2
  refine ⟨by simp [deleteUserH, hx], ?_, count_removeFirst _ _⟩
  simp only [deleteUserH, hx]
  simpa [trimFriend, Function.iterate_one] using h2

/-- C8 witness: "2" holds "1" twice, appears once in "1"'s friend list, and
keeps the second copy of "1" after `DeleteUser("1")`. -/
theorem delete_single_removal_per_scan_witness :
    (deleteUserH [("1", ⟨"Alice", 30, ["2"]⟩),
        ("2", ⟨"Bob", 25, ["1", "3", "1"]⟩)] "1").2 = some "Alice" ∧
    lookupUser (deleteUserH [("1", ⟨"Alice", 30, ["2"]⟩),
        ("2", ⟨"Bob", 25, ["1", "3", "1"]⟩)] "1").1 "2" =
      some ⟨"Bob", 25, removeFirst ["1", "3", "1"] "1"⟩ ∧
    (removeFirst ["1", "3", "1"] "1").count "1" =
      (["1", "3", "1"] : List String).count "1" - 1 :=
  delete_single_removal_per_scan _ "1" "2" ⟨"Alice", 30, ["2"]⟩
    ⟨"Bob", 25, ["1", "3", "1"]⟩ (by decide) (by decide) (by decide) (by decide)

/-- C6: listing fails exactly when the store holds no users; a successful
call returns the whole map, never an empty payload. -/
theorem listUsers_empty_iff (s : Store) :
    (getAllUsersH s = none ↔ s = []) ∧
    (∀ m, getAllUsersH s = some m → m = s ∧ m ≠ []) := by
  by_cases hs : s.length = 0
  · have : s = [] := List.length_eq_zero.mp hs
    subst this
    simp [getAllUsersH]
  · have hne : s ≠ [] := by
      intro h
      subst h
      simp at hs
    constructor
    · simp [getAllUsersH, hs, hne]
    · intro m hm
      simp [getAllUsersH, hs] at hm
      subst hm
      exact ⟨rfl, hne⟩

/-- C6 witness: a one-user store lists successfully with a non-empty payload. -/
theorem listUsers_empty_iff_witness :
    (getAllUsersH [("1", ⟨"Alice", 30, []⟩)] = none ↔
      ([("1", ⟨"Alice", 30, []⟩)] : Store) = []) ∧
    (∀ m, getAllUsersH [("1", ⟨"Alice", 30, []⟩)] = some m →
      m = [("1", ⟨"Alice", 30, []⟩)] ∧ m ≠ []) :=
  listUsers_empty_iff [("1", ⟨"Alice", 30, []⟩)]

/-- C7: querying friends fails exactly when the queried user is missing;
for an existing user it always succeeds, returning — in friend-list order —
the records of the friend IDs that still resolve and silently omitting
every friend ID that does not. -/
theorem getFriends_skips_stale (s : Store) (uid : String) :
    (getUserFriendsH s uid = none ↔ lookupUser s uid = none) ∧
    (∀ u, lookupUser s uid = some u →
      getUserFriendsH s uid =
        some (u.friends.filterMap (fun fid => lookupUser s fid))) := by
  constructor
  · cases h : lookupUser s uid <;> simp [getUserFriendsH, h]
  · intro u hu
    simp only [getUserFriendsH, hu]
    rw [friendsFold_eq_filterMap]
    simp

/-- C7 witness: a store whose user "1" has a stale friend entry "9"; the
query returns the two resolvable records and drops "9". -/
theorem getFriends_skips_stale_witness :
    (getUserFriendsH [("1", ⟨"Alice", 30, ["2", "9", "2"]⟩),
        ("2", ⟨"Bob", 25, ["1"]⟩)] "1" = none ↔
      lookupUser [("1", ⟨"Alice", 30, ["2", "9", "2"]⟩),
        ("2", ⟨"Bob", 25, ["1"]⟩)] "1" = none) ∧
    (∀ u, lookupUser [("1", ⟨"Alice", 30, ["2", "9", "2"]⟩),
        ("2", ⟨"Bob", 25, ["1"]⟩)] "1" = some u →
      getUserFriendsH [("1", ⟨"Alice", 30, ["2", "9", "2"]⟩),
          ("2", ⟨"Bob", 25, ["1"]⟩)] "1" =
        some (u.friends.filterMap (fun fid =>
          lookupUser [("1", ⟨"Alice", 30, ["2", "9", "2"]⟩),
            ("2", ⟨"Bob", 25, ["1"]⟩)] fid))) :=
  getFriends_skips_stale _ "1"

/-- C9: `CreateUser` always succeeds and stores the decoded record verbatim
under the fresh ID — no validation of the listed friend IDs, no reverse
edges, all other entries untouched — so a create with a non-empty friend
list can leave the store violating bidirectional consistency. -/
theorem create_no_validation :
    (∀ (s : Store) (c : Int) (u : User),
      lookupUser (createUserH s c u).1 (Int.repr c) = some u) ∧
    (∀ (s : Store) (c : Int) (u : User) (k : String), k ≠ Int.repr c →
      lookupUser (createUserH s c u).1 k = lookupUser s k) ∧
    checkSymmetric
      (createUserH (createUserH [] 1 ⟨"Alice", 30, []⟩).1 2
        ⟨"Bob", 25, ["1"]⟩).1 = false := by
  refine ⟨?_, ?_, by decide⟩
  · intro s c u
    exact lookupUser_insertUser_self _ _ _
  · intro s c u k hk
    exact lookupUser_insertUser_ne _ _ _ _ hk

/-- C9 witness: a concrete create leaves an unrelated entry untouched. -/
theorem create_no_validation_witness :
    lookupUser (createUserH [("1", ⟨"Alice", 30, []⟩)] 2
        ⟨"Bob", 25, ["1"]⟩).1 (Int.repr 2) = some ⟨"Bob", 25, ["1"]⟩ ∧
    lookupUser (createUserH [("1", ⟨"Alice", 30, []⟩)] 2
        ⟨"Bob", 25, ["1"]⟩).1 "1" =
      lookupUser [("1", ⟨"Alice", 30, []⟩)] "1" :=
  ⟨create_no_validation.1 [("1", ⟨"Alice", 30, []⟩)] 2 ⟨"Bob", 25, ["1"]⟩,
    create_no_validation.2.1 [("1", ⟨"Alice", 30, []⟩)] 2 ⟨"Bob", 25, ["1"]⟩
      "1" (by decide)⟩

/-- C5 counterexample: the 64-bit `int` counter wraps, so the explicit
request sequence of 2^64 + 1 creates revisits the counter value 1 and the
service returns the ID "1" twice — the minted IDs are not unique over every
request sequence of one process. -/
theorem created_ids_wrap_cex :
    2 ≤ (createdIDs initialState bigOps).count (Int.repr 1) := by
  have h1 := createdIDs_eq bigOps [] 1
  have hc : countCreates bigOps = 2 ^ 64 + 1 := countCreates_replicate _ _
  rw [hc] at h1
  have hsplit := counterSeq_append (2 ^ 64) 1 1
  have hper : wrapInc^[2 ^ 64] (1 : Int) = 1 := by
    rw [wrapInc_iterate 1 (by norm_num) (by norm_num)]
    unfold wrap64
    push_cast
  rw [hper] at hsplit
  rw [show createdIDs initialState bigOps = createdIDs ⟨[], 1⟩ bigOps from
    rfl, h1, hsplit, List.map_append, List.count_append]
  have hmem : Int.repr 1 ∈ (counterSeq 1 (2 ^ 64)).map Int.repr :=
    List.mem_map_of_mem _ (counterSeq_self_mem 1 (2 ^ 64) (by norm_num))
  have hpos := List.count_pos_iff.mpr hmem
  have hone : ((counterSeq (1 : Int) 1).map Int.repr).count (Int.repr 1)
      = 1 := by
    simp [counterSeq]
  omega

/-- C5 (amended): across any request sequence whose number of `/create`
calls stays below 2^63 − 1 — so the 64-bit counter never wraps, which covers
every run a real process can perform — the `/create` calls return the
decimal renderings of the consecutive counter values 1, 2, …, a strictly
increasing integer sequence starting at 1, and the minted IDs are pairwise
distinct: an ID is never reused, even when deletes occur anywhere in the
sequence. -/
theorem created_ids_sequential (ops : List Op)
    (hk : countCreates ops < 2 ^ 63 - 1) :
    createdIDs initialState ops =
      (List.range' 1 (countCreates ops)).map (fun (i : Nat) => Int.repr (i : Int)) ∧
    (List.range' 1 (countCreates ops)).Pairwise (· < ·) ∧
    (createdIDs initialState ops).Nodup := by
  have h2 : counterSeq (1 : Int) (countCreates ops) =
      (List.range' 1 (countCreates ops)).map (fun (i : Nat) => (i : Int)) :=
    counterSeq_no_wrap (countCreates ops) 1 (by omega)
  have h3 : createdIDs initialState ops =
      (List.range' 1 (countCreates ops)).map (fun (i : Nat) => Int.repr (i : Int)) := by
    have h1 : createdIDs initialState ops =
        (counterSeq 1 (countCreates ops)).map Int.repr :=
      createdIDs_eq ops [] 1
    rw [h1, h2, List.map_map]
    rfl
  refine ⟨h3, List.pairwise_lt_range' 1 _, ?_⟩
  rw [h3]
  refine List.Nodup.map ?_ (List.nodup_range' 1 _)
  intro a b hab
  exact natRepr_injective a b hab

/-- C5 witness: a concrete sequence with two creates and an interleaved
delete mints the distinct IDs "1" and "2". -/
theorem created_ids_sequential_witness :
    createdIDs initialState [Op.create ⟨"A", 30, []⟩, Op.deleteUser "1",
        Op.create ⟨"B", 25, []⟩] =
      (List.range' 1 (countCreates [Op.create ⟨"A", 30, []⟩,
        Op.deleteUser "1", Op.create ⟨"B", 25, []⟩])).map
        (fun i => Int.repr (i : Int)) ∧
    (List.range' 1 (countCreates [Op.create ⟨"A", 30, []⟩,
        Op.deleteUser "1", Op.create ⟨"B", 25, []⟩])).Pairwise (· < ·) ∧
    (createdIDs initialState [Op.create ⟨"A", 30, []⟩, Op.deleteUser "1",
        Op.create ⟨"B", 25, []⟩]).Nodup :=
  created_ids_sequential _ (by decide)

end SocialGraph
